import Mathlib

/-!
Verification of the DishList web application (brandonleon/DishList).

This file gives a shallow embedding of the application's data model and of
the operations of `app/config.py`, `app/storage.py` and `app/main.py`, and
proves the behavioural properties claimed for them.

Modelling conventions:
* SQLite tables are lists of rows; `AUTOINCREMENT` primary keys are modelled
  by a `next…Id` counter carried in the state.
* Python strings are Lean `String`s.  Python's `str.strip`, `str.lower`,
  `str.split` and `", ".join`, and SQLite's `LOWER`, are modelled by the
  executable functions `pyTrim`, `pyLower`, `splitChars` and `joinComma`
  below (ASCII case folding, which is what SQLite's `LOWER` does and what
  every string in this application exercises).
* Python's `sorted`/`list.sort` and SQL `ORDER BY` are both stable sorts;
  they are modelled by the stable insertion sort `sortBy`.
* Timestamps (file mtimes, `updated_at` columns, `created_at` text) are
  opaque: `Nat` for comparisons, ISO text modelled as the identity
  round-trip `isoformat`/`fromisoformat` on a stored string.
* `json.dumps`/`json.loads` on a list of strings is an identity round-trip
  and is modelled as such.
-/

namespace DishList

/-! ### Generic list helpers -/

/-- First-occurrence de-duplication with an accumulator of already seen
elements; models the `seen`-set loops of `_normalize_tag_ids` (main.py) and
`_replace_dish_tags` (storage.py). -/
def dedupKeepFirst {α : Type} [DecidableEq α] (seen : List α) : List α → List α
  | [] => []
  | x :: xs => if x ∈ seen then dedupKeepFirst seen xs else x :: dedupKeepFirst (x :: seen) xs

theorem mem_dedupKeepFirst {α : Type} [DecidableEq α] (y : α) :
    ∀ (l seen : List α), y ∈ dedupKeepFirst seen l ↔ y ∈ l ∧ y ∉ seen := by
  intro l
  induction l with
  | nil => intro seen; simp [dedupKeepFirst]
  | cons x xs ih =>
    intro seen
    by_cases hx : x ∈ seen
    · rw [dedupKeepFirst, if_pos hx, ih]
      constructor
      · rintro ⟨hy, hns⟩; exact ⟨List.mem_cons_of_mem x hy, hns⟩
      · rintro ⟨hy, hns⟩
        rcases List.mem_cons.mp hy with rfl | h
        · exact absurd hx hns
        · exact ⟨h, hns⟩
    · rw [dedupKeepFirst, if_neg hx, List.mem_cons, ih]
      constructor
      · rintro (rfl | ⟨hy, hns⟩)
        · exact ⟨List.mem_cons_self _ _, hx⟩
        · exact ⟨List.mem_cons_of_mem x hy, fun h => hns (List.mem_cons_of_mem x h)⟩
      · rintro ⟨hy, hns⟩
        rcases List.mem_cons.mp hy with rfl | h
        · exact Or.inl rfl
        · rcases eq_or_ne y x with rfl | hyx
          · exact Or.inl rfl
          · exact Or.inr ⟨h, fun hm => (List.mem_cons.mp hm).elim hyx hns⟩

theorem nodup_dedupKeepFirst {α : Type} [DecidableEq α] :
    ∀ (l seen : List α), (dedupKeepFirst seen l).Nodup := by
  intro l
  induction l with
  | nil => intro seen; simp [dedupKeepFirst]
  | cons x xs ih =>
    intro seen
    by_cases hx : x ∈ seen
    · rw [dedupKeepFirst, if_pos hx]; exact ih seen
    · rw [dedupKeepFirst, if_neg hx]
      refine List.Nodup.cons ?_ (ih (x :: seen))
      intro hmem
      rcases (mem_dedupKeepFirst x xs (x :: seen)).mp hmem with ⟨_, hns⟩
      exact hns (List.mem_cons_self x seen)

theorem dedupKeepFirst_eq_self {α : Type} [DecidableEq α] :
    ∀ (l seen : List α), l.Nodup → (∀ x ∈ l, x ∉ seen) → dedupKeepFirst seen l = l := by
  intro l
  induction l with
  | nil => intro seen _ _; rfl
  | cons x xs ih =>
    intro seen hnd hs
    have hx : x ∉ seen := hs x (List.mem_cons_self _ _)
    rw [dedupKeepFirst, if_neg hx]
    congr 1
    refine ih (x :: seen) (List.Nodup.of_cons hnd) ?_
    intro y hy
    intro hmem
    rcases List.mem_cons.mp hmem with rfl | h
    · exact (List.nodup_cons.mp hnd).1 hy
    · exact hs y (List.mem_cons_of_mem _ hy) h

/-- Insert an element into a (sorted) list in front of the first element it
compares `le` to. -/
def insertLe {α : Type} (le : α → α → Bool) (a : α) : List α → List α
  | [] => [a]
  | b :: bs => if le a b then a :: b :: bs else b :: insertLe le a bs

/-- Stable insertion sort; models Python's stable `list.sort`/`sorted` and
the deterministic `ORDER BY` of the SQL queries. -/
def sortBy {α : Type} (le : α → α → Bool) : List α → List α
  | [] => []
  | a :: as => insertLe le a (sortBy le as)

theorem insertLe_perm {α : Type} (le : α → α → Bool) (a : α) :
    ∀ l : List α, List.Perm (insertLe le a l) (a :: l) := by
  intro l
  induction l with
  | nil => simp [insertLe]
  | cons b bs ih =>
    by_cases h : le a b
    · simp [insertLe, h]
    · rw [insertLe, if_neg h]
      exact (List.Perm.cons b ih).trans (List.Perm.swap a b bs)

theorem sortBy_perm {α : Type} (le : α → α → Bool) :
    ∀ l : List α, List.Perm (sortBy le l) l := by
  intro l
  induction l with
  | nil => rfl
  | cons a as ih =>
    exact (insertLe_perm le a (sortBy le as)).trans (List.Perm.cons a ih)

theorem mem_insertLe {α : Type} (le : α → α → Bool) (a x : α) (l : List α) :
    x ∈ insertLe le a l ↔ x = a ∨ x ∈ l := by
  rw [(insertLe_perm le a l).mem_iff, List.mem_cons]

theorem insertLe_pairwise {α : Type} (le : α → α → Bool)
    (htr : ∀ a b c, le a b = true → le b c = true → le a c = true)
    (hto : ∀ a b, le a b = true ∨ le b a = true) (a : α) :
    ∀ l : List α, l.Pairwise (fun x y => le x y = true) →
      (insertLe le a l).Pairwise (fun x y => le x y = true) := by
  intro l
  induction l with
  | nil => intro _; simp [insertLe]
  | cons b bs ih =>
    intro h
    rcases List.pairwise_cons.mp h with ⟨hb, hbs⟩
    by_cases hab : le a b
    · rw [insertLe, if_pos hab]
      refine List.pairwise_cons.mpr ⟨?_, h⟩
      intro x hx
      rcases List.mem_cons.mp hx with rfl | hx
      · exact hab
      · exact htr a b x hab (hb x hx)
    · rw [insertLe, if_neg hab]
      refine List.pairwise_cons.mpr ⟨?_, ih hbs⟩
      intro x hx
      rcases (mem_insertLe le a x bs).mp hx with rfl | hx
      · rcases hto x b with h' | h'
        · exact absurd h' hab
        · exact h'
      · exact hb x hx

theorem sortBy_pairwise {α : Type} (le : α → α → Bool)
    (htr : ∀ a b c, le a b = true → le b c = true → le a c = true)
    (hto : ∀ a b, le a b = true ∨ le b a = true) :
    ∀ l : List α, (sortBy le l).Pairwise (fun x y => le x y = true) := by
  intro l
  induction l with
  | nil => simp [sortBy]
  | cons a as ih => exact insertLe_pairwise le htr hto a (sortBy le as) ih

/-! ### String primitives

Executable models of the Python / SQLite string operations used by the
application: code-point lexicographic comparison (Python `<` on `str`,
SQLite `BINARY` collation), ASCII lower-casing (SQLite `LOWER`, and
Python `str.lower` on the ASCII data this application handles),
whitespace stripping (`str.strip`), splitting on a one-character
separator (`str.split`), and `", ".join`. -/

/-- Code-point lexicographic `≤` on character lists. -/
def charsLe : List Char → List Char → Bool
  | [], _ => true
  | _ :: _, [] => false
  | a :: as, b :: bs =>
    decide (a.toNat < b.toNat) || (decide (a.toNat = b.toNat) && charsLe as bs)

/-- Code-point lexicographic `≤` on strings. -/
def strLe (a b : String) : Bool := charsLe a.data b.data

theorem char_toNat_inj {a b : Char} (h : a.toNat = b.toNat) : a = b := by
  have := congrArg Char.ofNat h
  simpa using this

theorem charsLe_total : ∀ l₁ l₂ : List Char, charsLe l₁ l₂ = true ∨ charsLe l₂ l₁ = true := by
  intro l₁
  induction l₁ with
  | nil => intro l₂; exact Or.inl rfl
  | cons a as ih =>
    intro l₂
    cases l₂ with
    | nil => exact Or.inr rfl
    | cons b bs =>
      rcases Nat.lt_trichotomy a.toNat b.toNat with h | h | h
      · left; simp [charsLe, h]
      · rcases ih bs with h' | h'
        · left; simp [charsLe, h, h']
        · right; simp [charsLe, h.symm, h']
      · right; simp [charsLe, h]

theorem charsLe_trans :
    ∀ l₁ l₂ l₃ : List Char,
      charsLe l₁ l₂ = true → charsLe l₂ l₃ = true → charsLe l₁ l₃ = true := by
  intro l₁
  induction l₁ with
  | nil => intro l₂ l₃ _ _; rfl
  | cons a as ih =>
    intro l₂ l₃ h12 h23
    cases l₂ with
    | nil => simp [charsLe] at h12
    | cons b bs =>
      cases l₃ with
      | nil => simp [charsLe] at h23
      | cons c cs =>
        simp only [charsLe, Bool.or_eq_true, Bool.and_eq_true, decide_eq_true_eq] at h12 h23 ⊢
        rcases h12 with h12 | ⟨h12e, h12t⟩ <;> rcases h23 with h23 | ⟨h23e, h23t⟩
        · exact Or.inl (Nat.lt_trans h12 h23)
        · exact Or.inl (h23e ▸ h12)
        · exact Or.inl (h12e ▸ h23)
        · exact Or.inr ⟨h12e.trans h23e, ih bs cs h12t h23t⟩

theorem charsLe_antisymm :
    ∀ l₁ l₂ : List Char, charsLe l₁ l₂ = true → charsLe l₂ l₁ = true → l₁ = l₂ := by
  intro l₁
  induction l₁ with
  | nil =>
    intro l₂ _ h21
    cases l₂ with
    | nil => rfl
    | cons b bs => simp [charsLe] at h21
  | cons a as ih =>
    intro l₂ h12 h21
    cases l₂ with
    | nil => simp [charsLe] at h12
    | cons b bs =>
      simp only [charsLe, Bool.or_eq_true, Bool.and_eq_true, decide_eq_true_eq] at h12 h21
      rcases h12 with h12 | ⟨h12e, h12t⟩ <;> rcases h21 with h21 | ⟨h21e, h21t⟩
      · omega
      · omega
      · omega
      · rw [char_toNat_inj h12e, ih bs h12t h21t]

theorem strLe_total (a b : String) : strLe a b = true ∨ strLe b a = true :=
  charsLe_total a.data b.data

theorem strLe_trans {a b c : String} (h1 : strLe a b = true) (h2 : strLe b c = true) :
    strLe a c = true :=
  charsLe_trans a.data b.data c.data h1 h2

theorem strLe_antisymm {a b : String} (h1 : strLe a b = true) (h2 : strLe b a = true) :
    a = b := by
  cases a; cases b
  exact congrArg String.mk (charsLe_antisymm _ _ h1 h2)

/-- ASCII lower-casing of a string; models SQLite `LOWER` and Python
`str.lower` on the ASCII strings of this application. -/
def pyLower (s : String) : String := ⟨s.data.map Char.toLower⟩

/-- Python whitespace test for `str.strip` (ASCII whitespace). -/
def pySpace (c : Char) : Bool := c.isWhitespace

/-- Python `str.strip()`: drop whitespace from both ends. -/
def pyTrim (s : String) : String :=
  ⟨((s.data.dropWhile pySpace).reverse.dropWhile pySpace).reverse⟩

/-- Python `str.split(sep)` for a one-character separator. -/
def splitChars (sep : Char) : List Char → List (List Char)
  | [] => [[]]
  | c :: cs =>
    match splitChars sep cs with
    | [] => if c = sep then [[], []] else [[c]]
    | h :: t => if c = sep then [] :: h :: t else (c :: h) :: t

/-- Python `", ".join`. -/
def joinComma : List String → String
  | [] => ""
  | [a] => a
  | a :: rest => a ++ ", " ++ joinComma rest

/-- Does `n` occur as a leading segment of `h`? (helper for `hasSub`). -/
def leadsWith {α : Type} [DecidableEq α] : List α → List α → Bool
  | [], _ => true
  | _ :: _, [] => false
  | a :: as, b :: bs => decide (a = b) && leadsWith as bs

/-- Substring test on lists; models Python's `x in s` on strings. -/
def hasSub {α : Type} [DecidableEq α] (n : List α) : List α → Bool
  | [] => n.isEmpty
  | b :: t => leadsWith n (b :: t) || hasSub n t

theorem leadsWith_iff {α : Type} [DecidableEq α] :
    ∀ n h : List α, leadsWith n h = true ↔ ∃ t, h = n ++ t := by
  intro n
  induction n with
  | nil => intro h; simp [leadsWith]
  | cons a as ih =>
    intro h
    cases h with
    | nil =>
      simp only [leadsWith, List.cons_append]
      constructor
      · intro hF; cases hF
      · rintro ⟨t, ht⟩; cases ht
    | cons b bs =>
      simp only [leadsWith, Bool.and_eq_true, decide_eq_true_eq, ih, List.cons_append]
      constructor
      · rintro ⟨rfl, t, rfl⟩; exact ⟨t, rfl⟩
      · rintro ⟨t, ht⟩
        injection ht with h1 h2
        exact ⟨h1.symm, t, h2⟩

theorem hasSub_iff {α : Type} [DecidableEq α] (n : List α) :
    ∀ h : List α, hasSub n h = true ↔ ∃ p t, h = p ++ n ++ t := by
  intro h
  induction h with
  | nil =>
    simp only [hasSub, List.isEmpty_iff]
    constructor
    · rintro rfl; exact ⟨[], [], rfl⟩
    · rintro ⟨p, t, ht⟩
      rcases List.append_eq_nil.mp ht.symm with ⟨h1, h2⟩
      exact (List.append_eq_nil.mp h1).2
  | cons b t ih =>
    simp only [hasSub, Bool.or_eq_true, leadsWith_iff, ih]
    constructor
    · rintro (⟨s, hs⟩ | ⟨p, s, hs⟩)
      · exact ⟨[], s, by simp [hs]⟩
      · exact ⟨b :: p, s, by simp [hs]⟩
    · rintro ⟨p, s, hs⟩
      cases p with
      | nil => exact Or.inl ⟨s, by simpa using hs⟩
      | cons c cp =>
        right
        refine ⟨cp, s, ?_⟩
        have := hs
        simp only [List.cons_append, List.append_assoc] at this ⊢
        injection this with h1 h2

/-- The substring relation written as a proposition (used to state the
search claim). -/
def IsSub {α : Type} (n h : List α) : Prop := ∃ p t, h = p ++ n ++ t

instance {α : Type} [DecidableEq α] (n h : List α) : Decidable (IsSub n h) :=
  decidable_of_iff (hasSub n h = true) (hasSub_iff n h)

instance {ε α : Type} [DecidableEq ε] [DecidableEq α] : DecidableEq (Except ε α) := fun a b =>
  match a, b with
  | .error e, .error f =>
    if h : e = f then isTrue (by rw [h]) else isFalse fun hh => by cases hh; exact h rfl
  | .ok x, .ok y =>
    if h : x = y then isTrue (by rw [h]) else isFalse fun hh => by cases hh; exact h rfl
  | .error _, .ok _ => isFalse fun hh => by cases hh
  | .ok _, .error _ => isFalse fun hh => by cases hh

/-! ### Data model (`app/models.py`, `app/config.py`) -/

/-- `AppConfig` (config.py): dish types and admin CIDR networks. -/
structure AppConfig where
  dish_types : List String
  admin_networks : List String
deriving DecidableEq

/-- The pydantic default factories of `AppConfig`. -/
def defaultConfig : AppConfig :=
  { dish_types := ["Main Dish", "Side Dish", "Dessert", "Beverage"]
    admin_networks := ["127.0.0.1/32"] }

/-- `Tag` (models.py). -/
structure Tag where
  id : Nat
  name : String
  category : String
  position : Int
deriving DecidableEq

/-- A row of the `dishes` table (storage.py `init_db`).  The JSON-encoded
`allergens`/`dietary_flags` columns are modelled by the string lists they
encode (`json.dumps`/`json.loads` round-trip is the identity on lists of
strings), and the ISO `created_at` text by an opaque string. -/
structure DishRow where
  id : Nat
  contributor : String
  dish_name : String
  dish_type : String
  allergens : List String
  dietary_flags : List String
  notes : Option String
  created_at : String
deriving DecidableEq

/-- `DishEntry` (models.py).  `created_at` is the ISO text of the datetime
(`datetime.isoformat`/`fromisoformat` round-trip cleanly). -/
structure DishEntry where
  id : Option Nat
  contributor : String
  dish_name : String
  dish_type : String
  allergens : List String
  dietary_flags : List String
  tag_ids : List Nat
  tags : List Tag
  notes : Option String
  created_at : String
deriving DecidableEq

/-! ### Config reconciliation (`app/config.py`, `app/storage.py`) -/

/-- `_is_file_newer` (config.py lines 115-120): a file timestamp wins only
when it is strictly newer; a missing database timestamp always loses; a
missing file timestamp always loses. -/
def is_file_newer : Option Nat → Option Nat → Bool
  | some f, some d => decide (d < f)
  | some _, none => true
  | none, _ => false

/-- The two redundant configuration stores: the JSON file (`config.json`
content together with its mtime) and the `config_entries` table (the config
it encodes together with the latest `updated_at`).  `none` means the file
does not exist, respectively the table holds no config rows (in which case
`load_app_config_from_db` returns `None`). -/
structure ConfigStores where
  file : Option (AppConfig × Nat)
  db : Option (AppConfig × Nat)
deriving DecidableEq

/-- `save_app_config_to_db` (storage.py lines 476-498): deletes all config
rows, then inserts one row per list element with `updated_at = now`.  Since
`_bulk_insert_config_entries` inserts nothing for an empty list and
`load_app_config_from_db` returns `None` when no rows exist, saving a
config whose two lists are both empty leaves the database holding no
configuration. -/
def save_app_config_to_db (c : AppConfig) (now : Nat) : Option (AppConfig × Nat) :=
  if c.dish_types.isEmpty && c.admin_networks.isEmpty then none else some (c, now)

/-- `_write_config_to_file` (config.py lines 92-94): always writes the full
JSON document, so the file afterwards holds exactly `c` with mtime `now`. -/
def write_config_to_file (c : AppConfig) (now : Nat) : Option (AppConfig × Nat) :=
  some (c, now)

/-- `load_config` (config.py lines 35-72).  `now` is the wall-clock time at
which any writes performed during the load are stamped. -/
def load_config (s : ConfigStores) (now : Nat) : AppConfig × ConfigStores :=
  match s.file, s.db with
  | some (fc, ft), some (dc, dt) =>
    if is_file_newer (some ft) (some dt) then
      (fc, { file := s.file, db := if fc ≠ dc then save_app_config_to_db fc now else s.db })
    else
      (dc, { file := if fc ≠ dc then write_config_to_file dc now else s.file, db := s.db })
  | some (fc, _), none =>
    (fc, { file := s.file, db := save_app_config_to_db fc now })
  | none, some (dc, _) =>
    (dc, { file := write_config_to_file dc now, db := s.db })
  | none, none =>
    (defaultConfig,
      { file := write_config_to_file defaultConfig now
        db := save_app_config_to_db defaultConfig now })

/-! ### Admin IP gate (`app/main.py` `_is_ip_allowed`) -/

/-- The behaviour of the Python `ipaddress` standard library, abstracted:
an address parser, a network parser (`strict=False`), and the membership
test.  `none` models a raised `ValueError`. -/
structure IPModel (A N : Type) where
  parseAddress : String → Option A
  parseNetwork : String → Option N
  memNet : A → N → Bool

/-- `request.client.host if request.client else "127.0.0.1"`. -/
def clientHostOf (client : Option String) : String := client.getD "127.0.0.1"

/-- `_is_ip_allowed` (main.py lines 123-136): parse the client host (an
unparseable host fails closed), then scan the configured networks, skipping
unparseable ones, granting access on the first network containing the
address. -/
def is_ip_allowed {A N : Type} (M : IPModel A N) (client : Option String)
    (config : AppConfig) : Bool :=
  match M.parseAddress (clientHostOf client) with
  | none => false
  | some ip =>
    config.admin_networks.any fun net =>
      match M.parseNetwork net with
      | none => false
      | some n => M.memNet ip n

/-- Digit-string to number (for the IPv4 literal model). -/
def digitsToNat (cs : List Char) : Nat := cs.foldl (fun a c => 10 * a + (c.toNat - 48)) 0

/-- `ipaddress` parsing of one IPv4 octet: non-empty, ASCII digits only, at
most three characters, no leading zero, value at most 255. -/
def parseOctet (cs : List Char) : Option Nat :=
  if cs.isEmpty then none
  else if !cs.all Char.isDigit then none
  else if cs.length > 3 then none
  else if cs.length > 1 && decide (cs.head? = some '0') then none
  else if digitsToNat cs > 255 then none
  else some (digitsToNat cs)

/-- `ipaddress.ip_address` on dotted-quad IPv4 literals (the only address
shape this development evaluates concretely). -/
def parseIPv4 (s : String) : Option Nat :=
  match splitChars '.' s.data with
  | [a, b, c, d] =>
    match parseOctet a, parseOctet b, parseOctet c, parseOctet d with
    | some x, some y, some z, some w => some (((x * 256 + y) * 256 + z) * 256 + w)
    | _, _, _, _ => none
  | _ => none

/-- Decimal prefix length `0 ≤ p ≤ 32`. -/
def parsePrefixLen (cs : List Char) : Option Nat :=
  if cs.isEmpty then none
  else if !cs.all Char.isDigit then none
  else if digitsToNat cs > 32 then none
  else some (digitsToNat cs)

/-- `ipaddress.ip_network(s, strict=False)` on IPv4 `addr` or `addr/len`
literals: parse, then mask away the host bits.  The network is represented
as (network address, prefix length). -/
def parseIPv4Network (s : String) : Option (Nat × Nat) :=
  match splitChars '/' s.data with
  | [addr] => (parseIPv4 ⟨addr⟩).map fun ip => (ip, 32)
  | [addr, p] =>
    match parseIPv4 ⟨addr⟩, parsePrefixLen p with
    | some ip, some pl => some (ip - ip % 2 ^ (32 - pl), pl)
    | _, _ => none
  | _ => none

/-- `addr in network`: the high `prefixLen` bits agree. -/
def ipv4Mem (ip : Nat) (net : Nat × Nat) : Bool :=
  decide (ip / 2 ^ (32 - net.2) = net.1 / 2 ^ (32 - net.2))

/-- The `ipaddress` model instantiated for IPv4 literals. -/
def ipv4Model : IPModel Nat (Nat × Nat) :=
  { parseAddress := parseIPv4, parseNetwork := parseIPv4Network, memNet := ipv4Mem }

/-! ### Storage layer (`app/storage.py`) -/

/-- `TAG_CATEGORY_ORDER` (storage.py lines 16-23). -/
def TAG_CATEGORY_ORDER : List String :=
  ["Dietary patterns", "Ingredient avoidances", "Preparation and cross-contact",
   "Additives and content", "Spice and suitability", "Serving logistics"]

/-- `_category_sort_index`: `_CATEGORY_ORDER_LOOKUP.get(category, len(TAG_CATEGORY_ORDER))`.
`List.indexOf` returns the list length for an absent element, exactly the
dictionary default. -/
def category_sort_index (c : String) : Nat := TAG_CATEGORY_ORDER.indexOf c

/-- The comparator induced by `_tag_sort_key`
`(category index, position, name.lower())` under Python's lexicographic
tuple order (used by the stable `list.sort`). -/
def tagKeyLe (a b : Tag) : Bool :=
  decide (category_sort_index a.category < category_sort_index b.category
    ∨ (category_sort_index a.category = category_sort_index b.category
      ∧ (a.position < b.position
        ∨ (a.position = b.position ∧ strLe (pyLower a.name) (pyLower b.name) = true))))

/-- The comparator of the SQL `ORDER BY t.category, t.position, LOWER(t.name)`
in `_load_tags_for_dishes`: categories compare as raw strings (`BINARY`
collation), unlike `_tag_sort_key` which compares their display indices. -/
def sqlTagLe (a b : Tag) : Bool :=
  decide ((strLe a.category b.category = true ∧ a.category ≠ b.category)
    ∨ (a.category = b.category
      ∧ (a.position < b.position
        ∨ (a.position = b.position ∧ strLe (pyLower a.name) (pyLower b.name) = true))))

/-- The SQLite database: the `dishes`, `tags` and `dish_tags` tables, plus
the `AUTOINCREMENT` counters of the two primary keys.  A `dish_tags` row is
a `(dish_id, tag_id)` pair. -/
structure DB where
  dishes : List DishRow
  nextDishId : Nat
  tags : List Tag
  nextTagId : Nat
  dish_tags : List (Nat × Nat)
deriving DecidableEq

/-- `_replace_dish_tags` (storage.py lines 225-239): delete every
association of the dish, then insert one association per distinct
submitted tag id, first occurrences kept. -/
def replace_dish_tags (db : DB) (dish_id : Nat) (tag_ids : List Nat) : DB :=
  { db with dish_tags :=
      db.dish_tags.filter (fun p => decide (p.1 ≠ dish_id))
        ++ (dedupKeepFirst [] tag_ids).map fun t => (dish_id, t) }

/-- The `dishes` row `add_dish` inserts for an entry (storage.py lines
383-405): every column from the entry, under the next auto-increment id. -/
def rowOf (db : DB) (e : DishEntry) : DishRow :=
  { id := db.nextDishId
    contributor := e.contributor
    dish_name := e.dish_name
    dish_type := e.dish_type
    allergens := e.allergens
    dietary_flags := e.dietary_flags
    notes := e.notes
    created_at := e.created_at }

/-- `add_dish` (storage.py lines 381-406): insert the dish row with the
next auto-increment id, then `_replace_dish_tags` with `entry.tag_ids`. -/
def add_dish (db : DB) (e : DishEntry) : DB :=
  replace_dish_tags
    { db with dishes := db.dishes ++ [rowOf db e], nextDishId := db.nextDishId + 1 }
    db.nextDishId e.tag_ids

/-- `update_dish` (storage.py lines 409-434): overwrite every column of the
row(s) with the given id, then `_replace_dish_tags`. -/
def update_dish (db : DB) (dish_id : Nat) (e : DishEntry) : DB :=
  let dishes := db.dishes.map fun r =>
    if r.id = dish_id then
      { r with
        contributor := e.contributor
        dish_name := e.dish_name
        dish_type := e.dish_type
        allergens := e.allergens
        dietary_flags := e.dietary_flags
        notes := e.notes
        created_at := e.created_at }
    else r
  replace_dish_tags { db with dishes := dishes } dish_id e.tag_ids

/-- `delete_dish` (storage.py lines 437-440): delete the dish row and its
associations. -/
def delete_dish (db : DB) (dish_id : Nat) : DB :=
  { db with
    dishes := db.dishes.filter (fun r => decide (r.id ≠ dish_id))
    dish_tags := db.dish_tags.filter fun p => decide (p.1 ≠ dish_id) }

/-- `delete_tag` (storage.py lines 376-378) together with the
`ON DELETE CASCADE` foreign key of `dish_tags` (`init_db`, lines 143-153;
`PRAGMA foreign_keys = ON` is set on every connection): deleting the tag
row cascades to every association referencing it. -/
def delete_tag (db : DB) (tag_id : Nat) : DB :=
  { db with
    tags := db.tags.filter (fun t => decide (t.id ≠ tag_id))
    dish_tags := db.dish_tags.filter fun p => decide (p.2 ≠ tag_id) }

/-- `_load_tags_for_dishes` (storage.py lines 197-222) restricted to one
dish: inner-join the dish's associations with `tags` and sort by the SQL
key.  (`find?` models the join on the unique primary key `tags.id`.) -/
def tags_for_dish (db : DB) (dish_id : Nat) : List Tag :=
  sortBy sqlTagLe
    ((db.dish_tags.filter fun p => decide (p.1 = dish_id)).filterMap
      fun p => db.tags.find? fun t => decide (t.id = p.2))

/-- `_row_to_entry` (storage.py lines 170-186): the dietary flags are the
joined tag names when the dish has tags, otherwise the JSON column. -/
def row_to_entry (row : DishRow) (tag_list : List Tag) : DishEntry :=
  { id := some row.id
    contributor := row.contributor
    dish_name := row.dish_name
    dish_type := row.dish_type
    allergens := row.allergens
    dietary_flags :=
      if (tag_list.map Tag.name).isEmpty then row.dietary_flags else tag_list.map Tag.name
    tag_ids := tag_list.map Tag.id
    tags := tag_list
    notes := row.notes
    created_at := row.created_at }

/-- `get_dish` (storage.py lines 256-267). -/
def get_dish (db : DB) (dish_id : Nat) : Option DishEntry :=
  match db.dishes.find? fun r => decide (r.id = dish_id) with
  | none => none
  | some row => some (row_to_entry row (tags_for_dish db dish_id))

/-- `load_tags` (storage.py lines 270-288): all tags, stably sorted by
`_tag_sort_key`. -/
def load_tags (db : DB) : List Tag := sortBy tagKeyLe db.tags

/-- `load_tag_groups` (storage.py lines 291-304): group the sorted tags by
category, emit the six known categories in display order (skipping empty
buckets), then the remaining categories in string order. -/
def load_tag_groups (db : DB) : List (String × List Tag) :=
  let tags := load_tags db
  let known := TAG_CATEGORY_ORDER.filterMap fun c =>
    let bucket := tags.filter fun t => decide (t.category = c)
    if bucket.isEmpty then none else some (c, bucket)
  let unknown := sortBy strLe (dedupKeepFirst []
    ((tags.map Tag.category).filter fun c => decide (c ∉ TAG_CATEGORY_ORDER)))
  known ++ unknown.map fun c => (c, tags.filter fun t => decide (t.category = c))

/-- `get_tags_by_ids` (storage.py lines 307-330): `WHERE id IN (...)`, then
sorted by `_tag_sort_key`. -/
def get_tags_by_ids (db : DB) (tag_ids : List Nat) : List Tag :=
  if tag_ids.isEmpty then []
  else sortBy tagKeyLe (db.tags.filter fun t => decide (t.id ∈ tag_ids))

/-- `create_tag` (storage.py lines 337-373).  Errors are returned together
with the unchanged database; success returns the created tag and the
database with the row inserted at the next auto-increment id and at
position `COALESCE(MAX(position), -1) + 1` within its category. -/
def create_tag (db : DB) (name category : String) : Except String Tag × DB :=
  let cleaned := pyTrim name
  if cleaned = "" then (.error "Tag name cannot be empty", db)
  else
    let normalized := pyTrim category
    if normalized ∉ TAG_CATEGORY_ORDER then (.error "Unknown category", db)
    else if (db.tags.find? fun t => decide (pyLower t.name = pyLower cleaned)).isSome then
      (.error "That tag already exists", db)
    else
      let next_position :=
        (db.tags.filter fun t => decide (t.category = normalized)).foldl
          (fun m t => max m t.position) (-1) + 1
      let tag : Tag :=
        { id := db.nextTagId
          name := cleaned
          category := normalized
          position := next_position }
      (.ok tag, { db with tags := db.tags ++ [tag], nextTagId := db.nextTagId + 1 })

/-! ### Web layer (`app/main.py`) -/

/-- `_parse_allergens` (main.py lines 84-87): split the raw text on commas,
strip each chunk, keep the non-empty ones; `None` or an empty string gives
the empty list. -/
def parse_allergens : Option String → List String
  | none => []
  | some raw =>
    if raw = "" then []
    else ((splitChars ',' raw.data).map fun cs => pyTrim ⟨cs⟩).filter fun s => decide (s ≠ "")

/-- `_normalize_tag_ids` (main.py lines 90-98). -/
def normalize_tag_ids (raw_ids : List Nat) : List Nat := dedupKeepFirst [] raw_ids

/-- The six searchable chunks of `_filter_dishes` (main.py lines 108-115). -/
def searchChunks (d : DishEntry) : List String :=
  [d.dish_name, d.contributor, d.dish_type, d.notes.getD "",
   joinComma d.allergens, joinComma d.dietary_flags]

/-- `_filter_dishes` (main.py lines 101-120): empty (after stripping)
queries return the list unchanged; otherwise keep, in order, exactly the
dishes one of whose non-empty chunks contains the lowered query. -/
def filter_dishes (dishes : List DishEntry) (query : String) : List DishEntry :=
  let search := pyLower (pyTrim query)
  if search = "" then dishes
  else dishes.filter fun d =>
    (searchChunks d).any fun c => decide (c ≠ "") && hasSub search.data (pyLower c).data

/-- The form fields of `POST /add` and `POST /pantry-admin/dishes/{id}`;
`created_at` models the timestamp the `DishEntry` default factory produces
when the handler constructs the entry. -/
structure SubmissionForm where
  contributor : String
  dish_name : String
  dish_type : String
  allergens : Option String
  notes : Option String
  dietary_tags : List Nat
  created_at : String

/-- The `DishEntry` a submission handler constructs from the form and the
looked-up tags. -/
def entryOfForm (f : SubmissionForm) (tags : List Tag) : DishEntry :=
  { id := none
    contributor := pyTrim f.contributor
    dish_name := pyTrim f.dish_name
    dish_type := f.dish_type
    allergens := parse_allergens f.allergens
    dietary_flags := tags.map Tag.name
    tag_ids := tags.map Tag.id
    tags := []
    notes := match f.notes with
      | none => none
      | some n => if n = "" then none else some (pyTrim n)
    created_at := f.created_at }

/-- `add_submission` (main.py lines 176-205): validate the dish type, then
the (de-duplicated) tag ids, then insert.  Errors leave the database
untouched. -/
def add_submission (db : DB) (config : AppConfig) (f : SubmissionForm) :
    Except String Unit × DB :=
  if f.dish_type ∉ config.dish_types then (.error "Unknown dish type", db)
  else
    let tag_ids := normalize_tag_ids f.dietary_tags
    let tags := get_tags_by_ids db tag_ids
    if tags.length ≠ tag_ids.length then (.error "Unknown dietary tag selected", db)
    else (.ok (), add_dish db (entryOfForm f tags))

/-- `edit_dish_submit` (main.py lines 345-381): 404 on a missing dish, then
the same dish-type and tag-id validation as `add_submission`, then
`update_dish` with the dish's fields replaced (`model_copy`), keeping its
stored `created_at`. -/
def edit_dish_submit (db : DB) (config : AppConfig) (dish_id : Nat) (f : SubmissionForm) :
    Except String Unit × DB :=
  match get_dish db dish_id with
  | none => (.error "Dish not found", db)
  | some dish =>
    if f.dish_type ∉ config.dish_types then (.error "Unknown dish type", db)
    else
      let tag_ids := normalize_tag_ids f.dietary_tags
      let tags := get_tags_by_ids db tag_ids
      if tags.length ≠ tag_ids.length then (.error "Unknown dietary tag selected", db)
      else
        (.ok (), update_dish db dish_id
          { dish with
            contributor := pyTrim f.contributor
            dish_name := pyTrim f.dish_name
            dish_type := f.dish_type
            allergens := parse_allergens f.allergens
            dietary_flags := tags.map Tag.name
            tag_ids := tags.map Tag.id
            notes := match f.notes with
              | none => none
              | some n => if n = "" then none else some (pyTrim n) })

/-- The search-hit predicate, stated declaratively: the stripped, lowered
query occurs as a substring of the lowercased dish name, contributor, dish
type, notes, comma-joined allergen text, or comma-joined dietary-flag
text. -/
def matchesQuery (s : String) (d : DishEntry) : Prop :=
  IsSub s.data (pyLower d.dish_name).data
  ∨ IsSub s.data (pyLower d.contributor).data
  ∨ IsSub s.data (pyLower d.dish_type).data
  ∨ IsSub s.data (pyLower (d.notes.getD "")).data
  ∨ IsSub s.data (pyLower (joinComma d.allergens)).data
  ∨ IsSub s.data (pyLower (joinComma d.dietary_flags)).data

instance (s : String) (d : DishEntry) : Decidable (matchesQuery s d) := by
  unfold matchesQuery
  infer_instance

/-- Display precedence of tag-group categories: known categories by their
fixed index, unknown categories after all known ones in string order. -/
def catBefore (c c' : String) : Prop :=
  category_sort_index c < category_sort_index c'
  ∨ (category_sort_index c = category_sort_index c' ∧ strLe c c' = true ∧ c ≠ c')

instance (c c' : String) : Decidable (catBefore c c') := by
  unfold catBefore
  infer_instance

/-- A two-tag catalog whose category display order ("Dietary patterns"
before "Additives and content") disagrees with the category string order
(`"Additives…" < "Dietary…"`), exposing the sort discrepancy between
`_tag_sort_key` and the SQL join's `ORDER BY t.category`. -/
def roundtripDB : DB :=
  { dishes := []
    nextDishId := 1
    tags := [⟨1, "Contains alcohol", "Additives and content", 0⟩,
             ⟨2, "Vegan", "Dietary patterns", 0⟩]
    nextTagId := 3
    dish_tags := [] }

/-- The entry the `POST /add` handler would build for `roundtripDB` with
both tags selected: tag ids and dietary flags in `get_tags_by_ids` order
(`_tag_sort_key`: "Vegan" first). -/
def roundtripEntry : DishEntry :=
  { id := none
    contributor := "Ann"
    dish_name := "Cake"
    dish_type := "Dessert"
    allergens := ["nuts"]
    dietary_flags := ["Vegan", "Contains alcohol"]
    tag_ids := [2, 1]
    tags := []
    notes := none
    created_at := "2026-01-01T00:00:00+00:00" }

/-- Sample dishes for concrete search evaluations. -/
def sampleDishA : DishEntry :=
  { id := some 1
    contributor := "Ann"
    dish_name := "Cake"
    dish_type := "Dessert"
    allergens := ["nuts"]
    dietary_flags := ["Vegan"]
    tag_ids := [2]
    tags := []
    notes := none
    created_at := "t1" }

def sampleDishB : DishEntry :=
  { id := some 2
    contributor := "Bob"
    dish_name := "Chili"
    dish_type := "Main Dish"
    allergens := []
    dietary_flags := []
    tag_ids := []
    tags := []
    notes := some "very SPICY"
    created_at := "t2" }

/-! ### Theorems -/

/-- C10: a request carrying no client address is checked as if it came from
`127.0.0.1` (for every behaviour of the `ipaddress` library), and under the
default configuration (`admin_networks = ["127.0.0.1/32"]`) such a request
is granted admin access. -/
theorem missing_client_uses_loopback {A N : Type} (M : IPModel A N) (config : AppConfig) :
    is_ip_allowed M none config = is_ip_allowed M (some "127.0.0.1") config
    ∧ is_ip_allowed ipv4Model none defaultConfig = true :=
  ⟨rfl, by decide⟩

/-- C9: deleting a dish removes exactly its row and every association
referencing it, leaving tags untouched; deleting a tag removes exactly its
row and (by the `ON DELETE CASCADE` foreign key) every association
referencing it, leaving dishes untouched. -/
theorem delete_cascades_assocs (db : DB) (dish_id tag_id : Nat) :
    (∀ p : Nat × Nat, p ∈ (delete_dish db dish_id).dish_tags ↔ p ∈ db.dish_tags ∧ p.1 ≠ dish_id)
    ∧ (∀ r : DishRow, r ∈ (delete_dish db dish_id).dishes ↔ r ∈ db.dishes ∧ r.id ≠ dish_id)
    ∧ (delete_dish db dish_id).tags = db.tags
    ∧ (∀ p : Nat × Nat, p ∈ (delete_tag db tag_id).dish_tags ↔ p ∈ db.dish_tags ∧ p.2 ≠ tag_id)
    ∧ (∀ t : Tag, t ∈ (delete_tag db tag_id).tags ↔ t ∈ db.tags ∧ t.id ≠ tag_id)
    ∧ (delete_tag db tag_id).dishes = db.dishes := by
  refine ⟨fun p => ?_, fun r => ?_, rfl, fun p => ?_, fun t => ?_, rfl⟩ <;>
    simp [delete_dish, delete_tag, List.mem_filter]

/-- C4: after a create (`add_dish`, at the fresh id) or an update
(`update_dish`), the dish's stored associations are exactly the distinct
submitted tag ids (first occurrences kept), and associations of every other
dish are untouched. -/
theorem dish_tags_replaced_wholesale (db : DB) (dish_id : Nat) (e : DishEntry) :
    ((update_dish db dish_id e).dish_tags.filter (fun p => decide (p.1 = dish_id))
        = (dedupKeepFirst [] e.tag_ids).map fun t => (dish_id, t))
    ∧ ((update_dish db dish_id e).dish_tags.filter (fun p => decide (p.1 ≠ dish_id))
        = db.dish_tags.filter fun p => decide (p.1 ≠ dish_id))
    ∧ ((add_dish db e).dish_tags.filter (fun p => decide (p.1 = db.nextDishId))
        = (dedupKeepFirst [] e.tag_ids).map fun t => (db.nextDishId, t))
    ∧ ((add_dish db e).dish_tags.filter (fun p => decide (p.1 ≠ db.nextDishId))
        = db.dish_tags.filter fun p => decide (p.1 ≠ db.nextDishId)) := by
  have hsplit : ∀ (l : List (Nat × Nat)) (d : Nat) (ids : List Nat),
      ((l.filter (fun p => decide (p.1 ≠ d)) ++ (dedupKeepFirst [] ids).map fun t => (d, t)).filter
          (fun p => decide (p.1 = d)) = (dedupKeepFirst [] ids).map fun t => (d, t))
      ∧ ((l.filter (fun p => decide (p.1 ≠ d)) ++ (dedupKeepFirst [] ids).map fun t => (d, t)).filter
          (fun p => decide (p.1 ≠ d)) = l.filter fun p => decide (p.1 ≠ d)) := by
    intro l d ids
    rw [List.filter_append, List.filter_append]
    constructor
    · rw [List.filter_filter]
      have h1 : (l.filter fun p => decide (p.1 = d) && decide (p.1 ≠ d)) = [] := by
        apply List.filter_eq_nil_iff.mpr
        intro p _
        by_cases h : p.1 = d <;> simp [h]
      have h2 : (((dedupKeepFirst [] ids).map fun t => (d, t)).filter
          fun p => decide (p.1 = d)) = (dedupKeepFirst [] ids).map fun t => (d, t) := by
        apply List.filter_eq_self.mpr
        intro p hp
        rcases List.mem_map.mp hp with ⟨t, _, rfl⟩
        simp
      rw [h1, h2, List.nil_append]
    · rw [List.filter_filter]
      have h1 : (l.filter fun p => decide (p.1 ≠ d) && decide (p.1 ≠ d)) = l.filter fun p => decide (p.1 ≠ d) := by
        apply List.filter_congr
        intro p _
        by_cases h : p.1 = d <;> simp [h]
      have h2 : (((dedupKeepFirst [] ids).map fun t => (d, t)).filter
          fun p => decide (p.1 ≠ d)) = [] := by
        apply List.filter_eq_nil_iff.mpr
        intro p hp
        rcases List.mem_map.mp hp with ⟨t, _, rfl⟩
        simp
      rw [h1, h2, List.append_nil]
  refine ⟨?_, ?_, ?_, ?_⟩
  · exact (hsplit db.dish_tags dish_id e.tag_ids).1
  · exact (hsplit db.dish_tags dish_id e.tag_ids).2
  · exact (hsplit db.dish_tags db.nextDishId e.tag_ids).1
  · exact (hsplit db.dish_tags db.nextDishId e.tag_ids).2

/-- C2: the admin gate grants access iff the client host parses as an IP
address lying in at least one parseable configured network; an unparseable
host is rejected, and unparseable networks are skipped without granting
access (fail closed). -/
theorem is_ip_allowed_spec {A N : Type} (M : IPModel A N) (client : Option String)
    (config : AppConfig) :
    (is_ip_allowed M client config = true
      ↔ ∃ ip, M.parseAddress (clientHostOf client) = some ip
          ∧ ∃ net ∈ config.admin_networks,
              ∃ n, M.parseNetwork net = some n ∧ M.memNet ip n = true)
    ∧ (M.parseAddress (clientHostOf client) = none → is_ip_allowed M client config = false)
    ∧ (∀ ip, M.parseAddress (clientHostOf client) = some ip →
        (∀ net ∈ config.admin_networks, ∀ n, M.parseNetwork net = some n → M.memNet ip n = false) →
        is_ip_allowed M client config = false) := by
  have hbody : ∀ (ip : A) (net : String),
      ((match M.parseNetwork net with
        | none => false
        | some n => M.memNet ip n) = true)
      ↔ ∃ n, M.parseNetwork net = some n ∧ M.memNet ip n = true := by
    intro ip net
    cases h : M.parseNetwork net with
    | none => simp [h]
    | some n => simp [h]
  cases hA : M.parseAddress (clientHostOf client) with
  | none =>
    refine ⟨?_, fun _ => ?_, fun ip hip _ => ?_⟩
    · simp only [is_ip_allowed, hA]
      constructor
      · intro h; cases h
      · rintro ⟨ip, hip, _⟩; exact Option.noConfusion hip
    · simp [is_ip_allowed, hA]
    · exact Option.noConfusion hip
  | some ip =>
    refine ⟨?_, fun h => ?_, fun ip' hip' hnone => ?_⟩
    · simp only [is_ip_allowed, hA, List.any_eq_true]
      constructor
      · rintro ⟨net, hnet, hm⟩
        exact ⟨ip, rfl, net, hnet, (hbody ip net).mp hm⟩
      · rintro ⟨ip', hip', net, hnet, n, hn, hm⟩
        injection hip' with hip'
        subst hip'
        exact ⟨net, hnet, (hbody ip net).mpr ⟨n, hn, hm⟩⟩
    · exact Option.noConfusion h
    · injection hip' with hip'
      subst hip'
      simp only [is_ip_allowed, hA, List.any_eq_false]
      intro net hnet
      cases hN : M.parseNetwork net with
      | none => simp
      | some n => simpa using hnone net hnet n hN

/-- C2 witness: under the concrete IPv4 model, a client inside a configured
network is granted access. -/
theorem is_ip_allowed_spec_witness :
    is_ip_allowed ipv4Model (some "10.3.4.5") ⟨[], ["bad", "10.0.0.0/8"]⟩ = true :=
  (is_ip_allowed_spec ipv4Model (some "10.3.4.5") ⟨[], ["bad", "10.0.0.0/8"]⟩).1.mpr
    ⟨167969797, by decide, "10.0.0.0/8", by decide, (167772160, 8), by decide, by decide⟩

/-- C6: `create_tag` errors exactly when the stripped name is empty, the
stripped category is unknown, or a case-insensitive duplicate name exists;
an error leaves the tag table unchanged, and otherwise the stripped tag is
inserted (at the next per-category position) and returned. -/
theorem create_tag_spec (db : DB) (name category : String) :
    ((∃ msg, (create_tag db name category).1 = .error msg)
      ↔ pyTrim name = "" ∨ pyTrim category ∉ TAG_CATEGORY_ORDER
        ∨ ∃ t ∈ db.tags, pyLower t.name = pyLower (pyTrim name))
    ∧ ((∃ msg, (create_tag db name category).1 = .error msg)
        → (create_tag db name category).2 = db)
    ∧ (∀ tag, (create_tag db name category).1 = .ok tag →
        (create_tag db name category).2.tags = db.tags ++ [tag]
          ∧ tag.name = pyTrim name ∧ tag.category = pyTrim category) := by
  simp only [create_tag]
  split_ifs with h1 h2 h3
  · exact ⟨⟨fun _ => Or.inl h1, fun _ => ⟨"Tag name cannot be empty", rfl⟩⟩,
      fun _ => rfl, fun tag htag => htag.elim⟩
  · have hdup : ∃ t ∈ db.tags, pyLower t.name = pyLower (pyTrim name) := by
      rcases Option.isSome_iff_exists.mp h3 with ⟨t, ht⟩
      refine ⟨t, List.mem_of_find?_eq_some ht, ?_⟩
      have := List.find?_some ht
      simpa using this
    exact ⟨⟨fun _ => Or.inr (Or.inr hdup), fun _ => ⟨"That tag already exists", rfl⟩⟩,
      fun _ => rfl, fun tag htag => htag.elim⟩
  · have hnodup : ¬ ∃ t ∈ db.tags, pyLower t.name = pyLower (pyTrim name) := by
      rintro ⟨t, htmem, hteq⟩
      have : (db.tags.find? fun t => decide (pyLower t.name = pyLower (pyTrim name))).isSome := by
        rw [List.find?_isSome]
        exact ⟨t, htmem, by simpa using hteq⟩
      exact h3 this
    refine ⟨?_, fun herr => ?_, fun tag htag => ?_⟩
    · constructor
      · rintro ⟨msg, hmsg⟩; exact hmsg.elim
      · rintro (h | h | h)
        · exact absurd h h1
        · exact absurd h2 h
        · exact absurd h hnodup
    · rcases herr with ⟨msg, hmsg⟩
      exact hmsg.elim
    · injection htag with htag
      subst htag
      exact ⟨rfl, rfl, rfl⟩
  · exact ⟨⟨fun _ => Or.inr (Or.inl h2), fun _ => ⟨"Unknown category", rfl⟩⟩,
      fun _ => rfl, fun tag htag => htag.elim⟩

/-- C1 counterexample: the claim "when only one source holds a
configuration, that configuration is returned and copied to the other
store" fails when the file alone holds a configuration with no dish types
and no admin networks: `_bulk_insert_config_entries` inserts no rows for
empty lists, so after the load the database still holds no configuration
(`load_app_config_from_db` would return `None`). -/
theorem load_config_empty_not_copied :
    (load_config ⟨some (⟨[], []⟩, 1), none⟩ 2).1 = AppConfig.mk [] []
    ∧ (load_config ⟨some (⟨[], []⟩, 1), none⟩ 2).2.db = none := by
  exact ⟨rfl, rfl⟩

/-- C1 (amended): on every load, when both stores hold a configuration the
one with the strictly newer timestamp wins (a tie favours the database),
and the loser is overwritten to match the winner exactly when they differ;
a sole source is adopted and copied to the other store; with neither
source present the defaults are written to both — in all cases with the
caveat that a winning configuration whose two lists are both empty cannot
be represented in the database store, where it leaves no rows at all. -/
theorem load_config_reconciliation (s : ConfigStores) (now : Nat) :
    (∀ fc ft dc dt, s.file = some (fc, ft) → s.db = some (dc, dt) →
      (dt < ft →
        (load_config s now).1 = fc
        ∧ (load_config s now).2.file = s.file
        ∧ (fc = dc → (load_config s now).2.db = s.db)
        ∧ (fc ≠ dc → ¬(fc.dish_types = [] ∧ fc.admin_networks = []) →
            (load_config s now).2.db = some (fc, now))
        ∧ (fc ≠ dc → fc.dish_types = [] → fc.admin_networks = [] →
            (load_config s now).2.db = none))
      ∧ (¬ dt < ft →
        (load_config s now).1 = dc
        ∧ (load_config s now).2.db = s.db
        ∧ (fc = dc → (load_config s now).2.file = s.file)
        ∧ (fc ≠ dc → (load_config s now).2.file = some (dc, now))))
    ∧ (∀ fc ft, s.file = some (fc, ft) → s.db = none →
        (load_config s now).1 = fc
        ∧ (load_config s now).2.file = s.file
        ∧ (¬(fc.dish_types = [] ∧ fc.admin_networks = []) →
            (load_config s now).2.db = some (fc, now))
        ∧ (fc.dish_types = [] → fc.admin_networks = [] →
            (load_config s now).2.db = none))
    ∧ (∀ dc dt, s.file = none → s.db = some (dc, dt) →
        (load_config s now).1 = dc
        ∧ (load_config s now).2.db = s.db
        ∧ (load_config s now).2.file = some (dc, now))
    ∧ (s.file = none → s.db = none →
        (load_config s now).1 = defaultConfig
        ∧ (load_config s now).2.file = some (defaultConfig, now)
        ∧ (load_config s now).2.db = some (defaultConfig, now)) := by
  obtain ⟨f, d⟩ := s
  refine ⟨?_, ?_, ?_, ?_⟩
  · rintro fc ft dc dt rfl rfl
    constructor
    · intro hlt
      have hnew : is_file_newer (some ft) (some dt) = true := by
        simpa [is_file_newer] using hlt
      by_cases heq : fc = dc
      · subst heq
        simp [load_config, hnew]
      · refine ⟨?_, ?_, fun h => absurd h heq, fun _ hne => ?_, fun _ he1 he2 => ?_⟩
        · simp [load_config, hnew, heq]
        · simp [load_config, hnew, heq]
        · have : ¬(fc.dish_types.isEmpty && fc.admin_networks.isEmpty) = true := by
            simpa [List.isEmpty_iff] using hne
          simp [load_config, hnew, heq, save_app_config_to_db, this]
        · simp [load_config, hnew, heq, save_app_config_to_db, he1, he2]
    · intro hlt
      have hnew : is_file_newer (some ft) (some dt) = false := by
        simpa [is_file_newer] using hlt
      by_cases heq : fc = dc
      · subst heq
        simp [load_config, hnew]
      · refine ⟨?_, ?_, fun h => absurd h heq, fun _ => ?_⟩
        · simp [load_config, hnew, heq]
        · simp [load_config, hnew, heq]
        · simp [load_config, hnew, heq, write_config_to_file]
  · rintro fc ft rfl rfl
    refine ⟨rfl, rfl, fun hne => ?_, fun he1 he2 => ?_⟩
    · have : ¬(fc.dish_types.isEmpty && fc.admin_networks.isEmpty) = true := by
        simpa [List.isEmpty_iff] using hne
      simp [load_config, save_app_config_to_db, this]
    · simp [load_config, save_app_config_to_db, he1, he2]
  · rintro dc dt rfl rfl
    exact ⟨rfl, rfl, rfl⟩
  · rintro rfl rfl
    exact ⟨rfl, rfl, by simp [load_config, save_app_config_to_db, defaultConfig]⟩

/-- C1 witness: a concrete instantiation of `load_config_reconciliation`:
with a file strictly newer than a differing database configuration, the
file configuration is returned and written over the database. -/
theorem load_config_reconciliation_witness :
    (load_config ⟨some (⟨["A"], ["n1"]⟩, 5), some (⟨["B"], ["n2"]⟩, 3)⟩ 9).1 = ⟨["A"], ["n1"]⟩
    ∧ (load_config ⟨some (⟨["A"], ["n1"]⟩, 5), some (⟨["B"], ["n2"]⟩, 3)⟩ 9).2.db
        = some (⟨["A"], ["n1"]⟩, 9) := by
  have h := (load_config_reconciliation
      ⟨some (⟨["A"], ["n1"]⟩, 5), some (⟨["B"], ["n2"]⟩, 3)⟩ 9).1
      ⟨["A"], ["n1"]⟩ 5 ⟨["B"], ["n2"]⟩ 3 rfl rfl
  have h2 := h.1 (by decide)
  exact ⟨h2.1, h2.2.2.2.1 (by decide) (by decide)⟩

/-- C6 witness: a concrete instantiation of `create_tag_spec`: creating a
tag whose name differs from an existing one only by case is rejected and
leaves the table unchanged. -/
theorem create_tag_spec_witness :
    (∃ msg, (create_tag ⟨[], 1, [⟨1, "Vegan", "Dietary patterns", 0⟩], 2, []⟩
        " vegan " "Dietary patterns").1 = .error msg)
    ∧ (create_tag ⟨[], 1, [⟨1, "Vegan", "Dietary patterns", 0⟩], 2, []⟩
        " vegan " "Dietary patterns").2 = ⟨[], 1, [⟨1, "Vegan", "Dietary patterns", 0⟩], 2, []⟩ := by
  have h := create_tag_spec ⟨[], 1, [⟨1, "Vegan", "Dietary patterns", 0⟩], 2, []⟩
    " vegan " "Dietary patterns"
  have herr : ∃ msg, (create_tag ⟨[], 1, [⟨1, "Vegan", "Dietary patterns", 0⟩], 2, []⟩
      " vegan " "Dietary patterns").1 = .error msg :=
    h.1.mpr (Or.inr (Or.inr ⟨⟨1, "Vegan", "Dietary patterns", 0⟩, by decide, by decide⟩))
  exact ⟨herr, h.2.1 herr⟩

theorem string_ne_empty_of_data {s : String} (h : s.data ≠ []) : s ≠ "" := by
  intro hs
  subst hs
  exact h rfl

theorem data_ne_nil_of_ne_empty {s : String} (h : s ≠ "") : s.data ≠ [] := by
  intro hd
  apply h
  cases s
  simp only at hd
  rw [hd]

/-- A non-empty needle is a substring of a lowered chunk iff the chunk is
non-empty and the Boolean test of `_filter_dishes` succeeds. -/
theorem chunk_match_iff (s : String) (hs : s ≠ "") (c : String) :
    ((decide (c ≠ "") && hasSub s.data (pyLower c).data) = true)
      ↔ IsSub s.data (pyLower c).data := by
  rw [Bool.and_eq_true, decide_eq_true_eq, hasSub_iff]
  constructor
  · rintro ⟨_, h⟩; exact h
  · intro h
    refine ⟨fun hc => ?_, h⟩
    subst hc
    rcases h with ⟨p, t, hpt⟩
    have h0 : ([] : List Char) = p ++ s.data ++ t := hpt
    have hsd : s.data = [] := by
      rcases List.append_eq_nil.mp h0.symm with ⟨h1, _⟩
      exact (List.append_eq_nil.mp h1).2
    exact data_ne_nil_of_ne_empty hs hsd

/-- C5: searching with a query that is empty after stripping returns the
list unfiltered; otherwise exactly the dishes matched by the (lowercased,
stripped) query across the six searchable fields survive, in their
original relative order, and a query matching no dish yields the empty
list. -/
theorem filter_dishes_spec (dishes : List DishEntry) (query : String) :
    (pyLower (pyTrim query) = "" → filter_dishes dishes query = dishes)
    ∧ (pyLower (pyTrim query) ≠ "" →
        filter_dishes dishes query
          = dishes.filter fun d => decide (matchesQuery (pyLower (pyTrim query)) d))
    ∧ (pyLower (pyTrim query) ≠ "" →
        (∀ d ∈ dishes, ¬ matchesQuery (pyLower (pyTrim query)) d) →
        filter_dishes dishes query = []) := by
  have hmain : pyLower (pyTrim query) ≠ "" →
      filter_dishes dishes query
        = dishes.filter fun d => decide (matchesQuery (pyLower (pyTrim query)) d) := by
    intro h
    rw [filter_dishes]
    simp only [if_neg h]
    apply List.filter_congr
    intro d _
    have hchunk : ∀ c : String,
        ((decide (c ≠ "") && hasSub (pyLower (pyTrim query)).data (pyLower c).data) = true)
          = IsSub (pyLower (pyTrim query)).data (pyLower c).data :=
      fun c => propext (chunk_match_iff (pyLower (pyTrim query)) h c)
    have hiff : ((searchChunks d).any fun c =>
          decide (c ≠ "") && hasSub (pyLower (pyTrim query)).data (pyLower c).data) = true
        ↔ matchesQuery (pyLower (pyTrim query)) d := by
      simp only [searchChunks, List.any_cons, List.any_nil, Bool.or_eq_true, Bool.or_false,
        hchunk, matchesQuery]
    by_cases hm : matchesQuery (pyLower (pyTrim query)) d
    · rw [decide_eq_true hm]
      exact hiff.mpr hm
    · rw [decide_eq_false hm]
      exact Bool.eq_false_iff.mpr fun hh => hm (hiff.mp hh)
  refine ⟨fun h => ?_, hmain, fun h hnone => ?_⟩
  · rw [filter_dishes]
    simp only [if_pos h]
  · rw [hmain h]
    apply List.filter_eq_nil_iff.mpr
    intro d hd
    simpa using hnone d hd

/-- C5 witness: a concrete instantiation of `filter_dishes_spec`: the query
`" spicy "` (matching one dish's notes, case-insensitively) keeps exactly
that dish. -/
theorem filter_dishes_spec_witness :
    filter_dishes [sampleDishA, sampleDishB] " spicy " = [sampleDishB] := by
  have h := (filter_dishes_spec [sampleDishA, sampleDishB] " spicy ").2.1 (by decide)
  rw [h]
  decide

/-- `get_tags_by_ids` returns one row per requested id that exists; with a
duplicate-free id list (ids are a primary key) the result has the length of
the request iff every requested id exists. -/
theorem get_tags_by_ids_all_found (db : DB) (S : List Nat)
    (hS : S.Nodup) (htags : (db.tags.map Tag.id).Nodup) :
    (get_tags_by_ids db S).length = S.length ↔ ∀ tid ∈ S, ∃ t ∈ db.tags, t.id = tid := by
  cases hS0 : S.isEmpty
  case true =>
    have : S = [] := List.isEmpty_iff.mp hS0
    subst this
    simp [get_tags_by_ids]
  case false =>
    rw [get_tags_by_ids, if_neg (by simp [hS0])]
    rw [(sortBy_perm tagKeyLe _).length_eq]
    have hFnodup : ((db.tags.filter fun t => decide (t.id ∈ S)).map Tag.id).Nodup :=
      htags.sublist ((List.filter_sublist db.tags).map Tag.id)
    have hFmem : ∀ x ∈ (db.tags.filter fun t => decide (t.id ∈ S)).map Tag.id, x ∈ S := by
      intro x hx
      rcases List.mem_map.mp hx with ⟨t, htF, rfl⟩
      have := List.of_mem_filter htF
      simpa using this
    have hlenF : ((db.tags.filter fun t => decide (t.id ∈ S)).map Tag.id).length
        = (db.tags.filter fun t => decide (t.id ∈ S)).length := List.length_map _ _
    constructor
    · intro hlen tid htid
      by_contra hno
      push_neg at hno
      have hsub2 : ((db.tags.filter fun t => decide (t.id ∈ S)).map Tag.id) ⊆ S.erase tid := by
        intro x hx
        have hxS : x ∈ S := hFmem x hx
        rcases List.mem_map.mp hx with ⟨t, htF, rfl⟩
        have hxne : t.id ≠ tid := hno t (List.mem_of_mem_filter htF)
        exact (List.mem_erase_of_ne hxne).mpr hxS
      have hle : ((db.tags.filter fun t => decide (t.id ∈ S)).map Tag.id).length
          ≤ (S.erase tid).length := (hFnodup.subperm hsub2).length_le
      have hErase : (S.erase tid).length = S.length - 1 := List.length_erase_of_mem htid
      have hpos : 0 < S.length := List.length_pos.mpr (List.ne_nil_of_mem htid)
      omega
    · intro hall
      have hsub3 : S ⊆ (db.tags.filter fun t => decide (t.id ∈ S)).map Tag.id := by
        intro tid htid
        rcases hall tid htid with ⟨t, htmem, hteq⟩
        have htF : t ∈ db.tags.filter fun t => decide (t.id ∈ S) :=
          List.mem_filter.mpr ⟨htmem, by simp [hteq, htid]⟩
        exact List.mem_map.mpr ⟨t, htF, hteq⟩
      have h1 : S.length ≤ ((db.tags.filter fun t => decide (t.id ∈ S)).map Tag.id).length :=
        (hS.subperm hsub3).length_le
      have h2 : ((db.tags.filter fun t => decide (t.id ∈ S)).map Tag.id).length ≤ S.length :=
        (hFnodup.subperm hFmem).length_le
      omega

/-- C8: a submission (add or edit) whose de-duplicated tag-id list contains
an unknown id fails with the "Unknown dietary tag selected" error before
any write (the database is returned unchanged), and a submission is
accepted only when every requested tag id exists. -/
theorem unknown_tag_rejected (db : DB) (config : AppConfig) (f : SubmissionForm) (dish_id : Nat)
    (htags : (db.tags.map Tag.id).Nodup) :
    (f.dish_type ∈ config.dish_types →
      (∃ tid ∈ normalize_tag_ids f.dietary_tags, ∀ t ∈ db.tags, t.id ≠ tid) →
      add_submission db config f = (.error "Unknown dietary tag selected", db))
    ∧ ((add_submission db config f).1 = .ok () →
        ∀ tid ∈ normalize_tag_ids f.dietary_tags, ∃ t ∈ db.tags, t.id = tid)
    ∧ (∀ d, get_dish db dish_id = some d → f.dish_type ∈ config.dish_types →
        (∃ tid ∈ normalize_tag_ids f.dietary_tags, ∀ t ∈ db.tags, t.id ≠ tid) →
        edit_dish_submit db config dish_id f = (.error "Unknown dietary tag selected", db))
    ∧ ((edit_dish_submit db config dish_id f).1 = .ok () →
        ∀ tid ∈ normalize_tag_ids f.dietary_tags, ∃ t ∈ db.tags, t.id = tid) := by
  have hnd : (normalize_tag_ids f.dietary_tags).Nodup := nodup_dedupKeepFirst _ _
  have hcnt := get_tags_by_ids_all_found db (normalize_tag_ids f.dietary_tags) hnd htags
  have hbad : (∃ tid ∈ normalize_tag_ids f.dietary_tags, ∀ t ∈ db.tags, t.id ≠ tid) →
      (get_tags_by_ids db (normalize_tag_ids f.dietary_tags)).length
        ≠ (normalize_tag_ids f.dietary_tags).length := by
    rintro ⟨tid, htid, hnone⟩ he
    rcases hcnt.mp he tid htid with ⟨t, ht, heq⟩
    exact hnone t ht heq
  refine ⟨fun htype hex => ?_, fun hok => ?_, fun d hd htype hex => ?_, fun hok => ?_⟩
  · rw [add_submission, if_neg (not_not_intro htype)]
    simp only [if_pos (hbad hex)]
  · rw [add_submission] at hok
    by_cases htype : f.dish_type ∈ config.dish_types
    · rw [if_neg (not_not_intro htype)] at hok
      by_cases hlen : (get_tags_by_ids db (normalize_tag_ids f.dietary_tags)).length
          ≠ (normalize_tag_ids f.dietary_tags).length
      · rw [if_pos hlen] at hok
        exact absurd hok (by simp)
      · exact hcnt.mp (not_not.mp hlen)
    · rw [if_pos htype] at hok
      exact absurd hok (by simp)
  · simp only [edit_dish_submit, hd]
    rw [if_neg (not_not_intro htype)]
    simp only [if_pos (hbad hex)]
  · cases hd : get_dish db dish_id with
    | none =>
      simp only [edit_dish_submit, hd] at hok
      exact absurd hok (by simp)
    | some d =>
      simp only [edit_dish_submit, hd] at hok
      by_cases htype : f.dish_type ∈ config.dish_types
      · rw [if_neg (not_not_intro htype)] at hok
        by_cases hlen : (get_tags_by_ids db (normalize_tag_ids f.dietary_tags)).length
            ≠ (normalize_tag_ids f.dietary_tags).length
        · rw [if_pos hlen] at hok
          exact absurd hok (by simp)
        · exact hcnt.mp (not_not.mp hlen)
      · rw [if_pos htype] at hok
        exact absurd hok (by simp)

theorem tagKeyLe_trans :
    ∀ a b c : Tag, tagKeyLe a b = true → tagKeyLe b c = true → tagKeyLe a c = true := by
  intro a b c
  simp only [tagKeyLe, decide_eq_true_eq]
  rintro (h1 | ⟨e1, h1⟩) (h2 | ⟨e2, h2⟩)
  · exact Or.inl (Nat.lt_trans h1 h2)
  · exact Or.inl (e2 ▸ h1)
  · exact Or.inl (e1 ▸ h2)
  · refine Or.inr ⟨e1.trans e2, ?_⟩
    rcases h1 with h1 | ⟨p1, s1⟩ <;> rcases h2 with h2 | ⟨p2, s2⟩
    · exact Or.inl (lt_trans h1 h2)
    · exact Or.inl (p2 ▸ h1)
    · exact Or.inl (p1 ▸ h2)
    · exact Or.inr ⟨p1.trans p2, strLe_trans s1 s2⟩

theorem tagKeyLe_total : ∀ a b : Tag, tagKeyLe a b = true ∨ tagKeyLe b a = true := by
  intro a b
  simp only [tagKeyLe, decide_eq_true_eq]
  rcases Nat.lt_trichotomy (category_sort_index a.category) (category_sort_index b.category)
    with h | h | h
  · exact Or.inl (Or.inl h)
  · rcases Int.lt_trichotomy a.position b.position with hp | hp | hp
    · exact Or.inl (Or.inr ⟨h, Or.inl hp⟩)
    · rcases strLe_total (pyLower a.name) (pyLower b.name) with hs | hs
      · exact Or.inl (Or.inr ⟨h, Or.inr ⟨hp, hs⟩⟩)
      · exact Or.inr (Or.inr ⟨h.symm, Or.inr ⟨hp.symm, hs⟩⟩)
    · exact Or.inr (Or.inr ⟨h.symm, Or.inl hp⟩)
  · exact Or.inr (Or.inl h)

theorem sqlTagLe_trans :
    ∀ a b c : Tag, sqlTagLe a b = true → sqlTagLe b c = true → sqlTagLe a c = true := by
  intro a b c
  simp only [sqlTagLe, decide_eq_true_eq]
  rintro (⟨l1, n1⟩ | ⟨e1, h1⟩) (⟨l2, n2⟩ | ⟨e2, h2⟩)
  · refine Or.inl ⟨strLe_trans l1 l2, fun he => ?_⟩
    exact n1 (strLe_antisymm l1 (he ▸ l2))
  · exact Or.inl ⟨e2 ▸ l1, e2 ▸ n1⟩
  · rw [e1]
    exact Or.inl ⟨l2, n2⟩
  · refine Or.inr ⟨e1.trans e2, ?_⟩
    rcases h1 with h1 | ⟨p1, s1⟩ <;> rcases h2 with h2 | ⟨p2, s2⟩
    · exact Or.inl (lt_trans h1 h2)
    · exact Or.inl (p2 ▸ h1)
    · exact Or.inl (p1 ▸ h2)
    · exact Or.inr ⟨p1.trans p2, strLe_trans s1 s2⟩

theorem sqlTagLe_total : ∀ a b : Tag, sqlTagLe a b = true ∨ sqlTagLe b a = true := by
  intro a b
  simp only [sqlTagLe, decide_eq_true_eq]
  rcases eq_or_ne a.category b.category with hc | hc
  · rcases Int.lt_trichotomy a.position b.position with hp | hp | hp
    · exact Or.inl (Or.inr ⟨hc, Or.inl hp⟩)
    · rcases strLe_total (pyLower a.name) (pyLower b.name) with hs | hs
      · exact Or.inl (Or.inr ⟨hc, Or.inr ⟨hp, hs⟩⟩)
      · exact Or.inr (Or.inr ⟨hc.symm, Or.inr ⟨hp.symm, hs⟩⟩)
    · exact Or.inr (Or.inr ⟨hc.symm, Or.inl hp⟩)
  · rcases strLe_total a.category b.category with hs | hs
    · exact Or.inl (Or.inl ⟨hs, hc⟩)
    · exact Or.inr (Or.inl ⟨hs, hc.symm⟩)

theorem filterMap_bucket_fst (l : List String) (g : String → List Tag) :
    (l.filterMap fun c => if (g c).isEmpty then none else some (c, g c)).map Prod.fst
      = l.filter fun c => !(g c).isEmpty := by
  induction l with
  | nil => rfl
  | cons c cs ih =>
    rw [List.filterMap_cons, List.filter_cons]
    cases h : (g c).isEmpty with
    | true =>
      show List.map Prod.fst
          (List.filterMap (fun c => if (g c).isEmpty = true then none else some (c, g c)) cs)
        = List.filter (fun c => !(g c).isEmpty) cs
      exact ih
    | false =>
      show c :: List.map Prod.fst
          (List.filterMap (fun c => if (g c).isEmpty = true then none else some (c, g c)) cs)
        = c :: List.filter (fun c => !(g c).isEmpty) cs
      rw [ih]

/-- C7: `load_tags` returns a permutation of the tag table sorted by
`_tag_sort_key` (category display index, then position, then lowercased
name, with unknown categories indexing after all six known ones), and
`load_tag_groups` lists its non-empty category buckets — each bucket being
exactly the sorted tags of that category — with the six known categories in
display order before all unknown categories, which follow in string
order. -/
theorem tag_catalog_sorted (db : DB) :
    List.Perm (load_tags db) db.tags
    ∧ (load_tags db).Pairwise (fun a b => tagKeyLe a b = true)
    ∧ (∀ t : Tag, t.category ∉ TAG_CATEGORY_ORDER →
        category_sort_index t.category = TAG_CATEGORY_ORDER.length)
    ∧ (∀ c ∈ TAG_CATEGORY_ORDER, category_sort_index c < TAG_CATEGORY_ORDER.length)
    ∧ (∀ g ∈ load_tag_groups db,
        g.2 = (load_tags db).filter (fun t => decide (t.category = g.1)) ∧ g.2 ≠ [])
    ∧ ((load_tag_groups db).map Prod.fst).Pairwise catBefore := by
  have hUmem : ∀ c ∈ sortBy strLe (dedupKeepFirst []
      (((load_tags db).map Tag.category).filter fun c => decide (c ∉ TAG_CATEGORY_ORDER))),
      c ∈ (load_tags db).map Tag.category ∧ c ∉ TAG_CATEGORY_ORDER := by
    intro c hc
    have hc1 := (sortBy_perm strLe _).mem_iff.mp hc
    have hc2 := ((mem_dedupKeepFirst c _ _).mp hc1).1
    have hc3 := List.mem_filter.mp hc2
    exact ⟨hc3.1, by simpa using hc3.2⟩
  refine ⟨sortBy_perm tagKeyLe db.tags,
    sortBy_pairwise tagKeyLe tagKeyLe_trans tagKeyLe_total db.tags,
    fun t ht => List.indexOf_eq_length.mpr ht,
    fun c hc => List.indexOf_lt_length.mpr hc, ?_, ?_⟩
  · intro g hg
    simp only [load_tag_groups] at hg
    rcases List.mem_append.mp hg with hg | hg
    · rcases List.mem_filterMap.mp hg with ⟨c, _, hsome⟩
      by_cases h : ((load_tags db).filter fun t => decide (t.category = c)).isEmpty
      · rw [if_pos h] at hsome
        exact Option.noConfusion hsome
      · rw [if_neg h] at hsome
        injection hsome with hsome
        subst hsome
        refine ⟨rfl, fun hnil => h ?_⟩
        have hnil' : ((load_tags db).filter fun t => decide (t.category = c)) = [] := hnil
        rw [hnil']
        rfl
    · rcases List.mem_map.mp hg with ⟨c, hcm, rfl⟩
      refine ⟨rfl, ?_⟩
      rcases List.mem_map.mp (hUmem c hcm).1 with ⟨t, htT, rfl⟩
      have : t ∈ (load_tags db).filter fun u => decide (u.category = t.category) :=
        List.mem_filter.mpr ⟨htT, by simp⟩
      exact List.ne_nil_of_mem this
  · simp only [load_tag_groups, List.map_append, List.map_map]
    have hid : (Prod.fst ∘ fun c => (c, (load_tags db).filter fun t => decide (t.category = c)))
        = fun c : String => c := rfl
    rw [hid, List.map_id']
    rw [filterMap_bucket_fst TAG_CATEGORY_ORDER
      (fun c => (load_tags db).filter fun t => decide (t.category = c))]
    apply List.pairwise_append.mpr
    refine ⟨?_, ?_, ?_⟩
    · exact List.Pairwise.sublist (List.filter_sublist _) (by decide)
    · have hle := sortBy_pairwise strLe (fun a b c h1 h2 => strLe_trans h1 h2) strLe_total
        (dedupKeepFirst []
          (((load_tags db).map Tag.category).filter fun c => decide (c ∉ TAG_CATEGORY_ORDER)))
      have hnd : (sortBy strLe (dedupKeepFirst []
          (((load_tags db).map Tag.category).filter fun c =>
            decide (c ∉ TAG_CATEGORY_ORDER)))).Nodup :=
        ((sortBy_perm strLe _).nodup_iff).mpr (nodup_dedupKeepFirst _ _)
      refine List.Pairwise.imp_of_mem ?_ (hle.and hnd)
      intro a b ha hb hab
      refine Or.inr ⟨?_, hab.1, hab.2⟩
      have ha' : category_sort_index a = TAG_CATEGORY_ORDER.length :=
        List.indexOf_eq_length.mpr (hUmem a ha).2
      have hb' : category_sort_index b = TAG_CATEGORY_ORDER.length :=
        List.indexOf_eq_length.mpr (hUmem b hb).2
      rw [ha', hb']
    · intro a ha b hb
      have ha' : category_sort_index a < TAG_CATEGORY_ORDER.length :=
        List.indexOf_lt_length.mpr (List.mem_of_mem_filter ha)
      have hb' : category_sort_index b = TAG_CATEGORY_ORDER.length :=
        List.indexOf_eq_length.mpr (hUmem b hb).2
      exact Or.inl (by rw [hb']; exact ha')

/-- C8 witness: a concrete instantiation of `unknown_tag_rejected`: a
submission requesting the unknown tag id 9 is rejected with the unknown-tag
error and the database is unchanged. -/
theorem unknown_tag_rejected_witness :
    add_submission roundtripDB defaultConfig
        ⟨"Ann", "Cake", "Dessert", none, none, [2, 9], "t"⟩
      = (.error "Unknown dietary tag selected", roundtripDB) := by
  have h := (unknown_tag_rejected roundtripDB defaultConfig
      ⟨"Ann", "Cake", "Dessert", none, none, [2, 9], "t"⟩ 0 (by decide)).1
  exact h (by decide) ⟨9, by decide, by decide⟩

/-- C7 witness: a concrete instantiation of `tag_catalog_sorted`: the
"Dietary patterns" group of the two-tag catalog is listed with exactly the
sorted tags of that category. -/
theorem tag_catalog_sorted_witness :
    ("Dietary patterns", [Tag.mk 2 "Vegan" "Dietary patterns" 0]) ∈ load_tag_groups roundtripDB
    ∧ ([Tag.mk 2 "Vegan" "Dietary patterns" 0] : List Tag)
        = (load_tags roundtripDB).filter fun t => decide (t.category = "Dietary patterns") := by
  have h := (tag_catalog_sorted roundtripDB).2.2.2.2.1
  have hmem : ("Dietary patterns", [Tag.mk 2 "Vegan" "Dietary patterns" 0])
      ∈ load_tag_groups roundtripDB := by decide
  exact ⟨hmem, (h _ hmem).1⟩

/-- `find?` on an appended singleton whose prefix contains no hit. -/
theorem find?_append_of_none {α : Type} (p : α → Bool) (l : List α) (a : α)
    (h : ∀ x ∈ l, p x = false) :
    (l ++ [a]).find? p = if p a then some a else none := by
  induction l with
  | nil =>
    cases hp : p a with
    | true => simp [hp]
    | false => simp [hp]
  | cons b bs ih =>
    have hb : ¬ p b = true := by
      rw [h b (List.mem_cons_self _ _)]
      exact Bool.false_ne_true
    rw [List.cons_append, List.find?_cons_of_neg _ hb]
    exact ih fun x hx => h x (List.mem_cons_of_mem _ hx)

/-- Joining a list of ids each of which exists in the tag table yields, in
order, one tag per id (the unique row with that id). -/
theorem filterMap_find_ids (tags : List Tag) :
    ∀ ids : List Nat, (∀ tid ∈ ids, ∃ t ∈ tags, t.id = tid) →
      ((ids.filterMap fun tid => tags.find? fun t => decide (t.id = tid)).map Tag.id = ids
        ∧ ∀ t ∈ ids.filterMap fun tid => tags.find? fun t => decide (t.id = tid),
            t ∈ tags ∧ t.id ∈ ids) := by
  intro ids
  induction ids with
  | nil => intro _; exact ⟨rfl, fun t ht => absurd ht (List.not_mem_nil t)⟩
  | cons tid rest ih =>
    intro hall
    have hex := hall tid (List.mem_cons_self _ _)
    have hfind : ∃ t, (tags.find? fun t => decide (t.id = tid)) = some t := by
      rw [← Option.isSome_iff_exists, List.find?_isSome]
      rcases hex with ⟨t, ht, he⟩
      exact ⟨t, ht, by simpa using he⟩
    rcases hfind with ⟨t0, ht0⟩
    have ht0id : t0.id = tid := by
      have := List.find?_some ht0
      simpa using this
    have ht0mem : t0 ∈ tags := List.mem_of_find?_eq_some ht0
    have ihr := ih fun x hx => hall x (List.mem_cons_of_mem _ hx)
    simp only [List.filterMap_cons, ht0]
    constructor
    · rw [List.map_cons, ihr.1, ht0id]
    · intro t htmem
      rcases List.mem_cons.mp htmem with rfl | hmem
      · exact ⟨ht0mem, by rw [ht0id]; exact List.mem_cons_self _ _⟩
      · rcases ihr.2 t hmem with ⟨h1, h2⟩
        exact ⟨h1, List.mem_cons_of_mem _ h2⟩

/-- Splitting the associations list rebuilt by `_replace_dish_tags`-shaped
code: the rows of the dish are exactly the appended ones, the rows of other
dishes exactly the kept ones. -/
theorem filter_fst_append (l : List (Nat × Nat)) (d : Nat) (ids : List Nat) :
    ((l.filter (fun p => decide (p.1 ≠ d)) ++ ids.map fun t => (d, t)).filter
        (fun p => decide (p.1 = d)) = ids.map fun t => (d, t))
    ∧ ((l.filter (fun p => decide (p.1 ≠ d)) ++ ids.map fun t => (d, t)).filter
        (fun p => decide (p.1 ≠ d)) = l.filter fun p => decide (p.1 ≠ d)) := by
  rw [List.filter_append, List.filter_append]
  constructor
  · rw [List.filter_filter]
    have h1 : (l.filter fun p => decide (p.1 = d) && decide (p.1 ≠ d)) = [] := by
      apply List.filter_eq_nil_iff.mpr
      intro p _
      by_cases h : p.1 = d <;> simp [h]
    have h2 : ((ids.map fun t => (d, t)).filter fun p => decide (p.1 = d))
        = ids.map fun t => (d, t) := by
      apply List.filter_eq_self.mpr
      intro p hp
      rcases List.mem_map.mp hp with ⟨t, _, rfl⟩
      simp
    rw [h1, h2, List.nil_append]
  · rw [List.filter_filter]
    have h1 : (l.filter fun p => decide (p.1 ≠ d) && decide (p.1 ≠ d))
        = l.filter fun p => decide (p.1 ≠ d) := by
      apply List.filter_congr
      intro p _
      by_cases h : p.1 = d <;> simp [h]
    have h2 : ((ids.map fun t => (d, t)).filter fun p => decide (p.1 ≠ d)) = [] := by
      apply List.filter_eq_nil_iff.mpr
      intro p hp
      rcases List.mem_map.mp hp with ⟨t, _, rfl⟩
      simp
    rw [h1, h2, List.append_nil]

/-- C3 counterexample: the round trip does not return the saved field
values verbatim.  `roundtripEntry` is a fully valid entry — distinct,
existing tag ids, with dietary flags exactly the tag names in the order the
submission handler produces them (`get_tags_by_ids`, sorted by
`_tag_sort_key`) — yet `get_dish` returns its dietary-flag and tag-id lists
re-sorted by the SQL join's `ORDER BY t.category` (raw category strings),
which orders the two categories oppositely to their display order. -/
theorem add_get_roundtrip_cex :
    roundtripEntry.tag_ids.Nodup
    ∧ (∀ tid ∈ roundtripEntry.tag_ids, ∃ t ∈ roundtripDB.tags, t.id = tid)
    ∧ roundtripEntry.tag_ids = (get_tags_by_ids roundtripDB roundtripEntry.tag_ids).map Tag.id
    ∧ roundtripEntry.dietary_flags
        = (get_tags_by_ids roundtripDB roundtripEntry.tag_ids).map Tag.name
    ∧ ∃ e', get_dish (add_dish roundtripDB roundtripEntry) roundtripDB.nextDishId = some e'
        ∧ e'.dietary_flags ≠ roundtripEntry.dietary_flags
        ∧ e'.tag_ids ≠ roundtripEntry.tag_ids := by
  refine ⟨by decide, by decide, by decide, by decide, ?_⟩
  refine ⟨_, rfl, by decide, by decide⟩

/-- C3 (amended): saving a valid entry (distinct, existing tag ids) and
loading it back by its assigned id preserves contributor, dish name, dish
type, allergens, notes and creation timestamp verbatim, and preserves the
tag-id list (hence the tag associations) and, when tags were saved, the
dietary-flag list as the saved tags' names — but both lists come back
re-sorted by the SQL join order (category string, position, lowercased
name) rather than in the saved order; an entry saved without tags keeps its
dietary-flag list verbatim. -/
theorem add_get_roundtrip (db : DB) (e : DishEntry)
    (hfresh : ∀ r ∈ db.dishes, r.id ≠ db.nextDishId)
    (hnodup : e.tag_ids.Nodup)
    (hexists : ∀ tid ∈ e.tag_ids, ∃ t ∈ db.tags, t.id = tid) :
    ∃ e', get_dish (add_dish db e) db.nextDishId = some e'
      ∧ e'.contributor = e.contributor
      ∧ e'.dish_name = e.dish_name
      ∧ e'.dish_type = e.dish_type
      ∧ e'.allergens = e.allergens
      ∧ e'.notes = e.notes
      ∧ e'.created_at = e.created_at
      ∧ e'.tag_ids = e'.tags.map Tag.id
      ∧ List.Perm e'.tag_ids e.tag_ids
      ∧ (∀ t ∈ e'.tags, t ∈ db.tags ∧ t.id ∈ e.tag_ids)
      ∧ (e.tag_ids = [] → e'.dietary_flags = e.dietary_flags)
      ∧ (e.tag_ids ≠ [] → e'.dietary_flags = e'.tags.map Tag.name)
      ∧ (add_dish db e).dish_tags.filter (fun p => decide (p.1 = db.nextDishId))
          = e.tag_ids.map fun tid => (db.nextDishId, tid) := by
  have hdedup : dedupKeepFirst [] e.tag_ids = e.tag_ids :=
    dedupKeepFirst_eq_self e.tag_ids [] hnodup (by intro x _; exact List.not_mem_nil x)
  have hdt : (add_dish db e).dish_tags
      = db.dish_tags.filter (fun p => decide (p.1 ≠ db.nextDishId))
        ++ e.tag_ids.map fun tid => (db.nextDishId, tid) := by
    show db.dish_tags.filter (fun p => decide (p.1 ≠ db.nextDishId))
        ++ (dedupKeepFirst [] e.tag_ids).map (fun t => (db.nextDishId, t)) = _
    rw [hdedup]
  have hfilterN : (add_dish db e).dish_tags.filter (fun p => decide (p.1 = db.nextDishId))
      = e.tag_ids.map fun tid => (db.nextDishId, tid) := by
    rw [hdt]
    exact (filter_fst_append db.dish_tags db.nextDishId e.tag_ids).1
  have hJ := filterMap_find_ids db.tags e.tag_ids hexists
  have htfd : tags_for_dish (add_dish db e) db.nextDishId
      = sortBy sqlTagLe
          (e.tag_ids.filterMap fun tid => db.tags.find? fun t => decide (t.id = tid)) := by
    rw [tags_for_dish]
    show sortBy sqlTagLe
        (((add_dish db e).dish_tags.filter fun p => decide (p.1 = db.nextDishId)).filterMap
          fun p => db.tags.find? fun t => decide (t.id = p.2)) = _
    rw [hfilterN, List.filterMap_map]
    rfl
  have hfind : (add_dish db e).dishes.find? (fun r => decide (r.id = db.nextDishId))
      = some (rowOf db e) := by
    show (db.dishes ++ [rowOf db e]).find? (fun r => decide (r.id = db.nextDishId))
      = some (rowOf db e)
    rw [find?_append_of_none _ _ _ (fun x hx => by simp [hfresh x hx])]
    simp [rowOf]
  have hget : get_dish (add_dish db e) db.nextDishId
      = some (row_to_entry (rowOf db e)
          (sortBy sqlTagLe
            (e.tag_ids.filterMap fun tid => db.tags.find? fun t => decide (t.id = tid)))) := by
    rw [get_dish, hfind, htfd]
  refine ⟨_, hget, rfl, rfl, rfl, rfl, rfl, rfl, rfl, ?_, ?_, ?_, ?_, hfilterN⟩
  · show ((sortBy sqlTagLe
        (e.tag_ids.filterMap fun tid => db.tags.find? fun t => decide (t.id = tid))).map
          Tag.id).Perm e.tag_ids
    have hperm := (sortBy_perm sqlTagLe
      (e.tag_ids.filterMap fun tid => db.tags.find? fun t => decide (t.id = tid))).map Tag.id
    rw [hJ.1] at hperm
    exact hperm
  · intro t ht
    have hmem : t ∈ e.tag_ids.filterMap fun tid => db.tags.find? fun t => decide (t.id = tid) :=
      (sortBy_perm sqlTagLe _).mem_iff.mp ht
    exact hJ.2 t hmem
  · intro hnil
    show (if ((sortBy sqlTagLe
        ((e.tag_ids.filterMap fun tid => db.tags.find? fun t => decide (t.id = tid)))).map
          Tag.name).isEmpty then e.dietary_flags
      else (sortBy sqlTagLe
        ((e.tag_ids.filterMap fun tid => db.tags.find? fun t => decide (t.id = tid)))).map
          Tag.name) = e.dietary_flags
    rw [hnil]
    rfl
  · intro hne
    have hJne : (e.tag_ids.filterMap fun tid => db.tags.find? fun t => decide (t.id = tid)) ≠ [] := by
      intro hn
      apply hne
      have := hJ.1
      rw [hn] at this
      exact this.symm
    have hsne : (sortBy sqlTagLe
        (e.tag_ids.filterMap fun tid => db.tags.find? fun t => decide (t.id = tid))) ≠ [] := by
      intro hn
      apply hJne
      have hp := sortBy_perm sqlTagLe
        (e.tag_ids.filterMap fun tid => db.tags.find? fun t => decide (t.id = tid))
      rw [hn] at hp
      exact hp.nil_eq.symm
    show (if ((sortBy sqlTagLe
        ((e.tag_ids.filterMap fun tid => db.tags.find? fun t => decide (t.id = tid)))).map
          Tag.name).isEmpty then e.dietary_flags
      else (sortBy sqlTagLe
        ((e.tag_ids.filterMap fun tid => db.tags.find? fun t => decide (t.id = tid)))).map
          Tag.name) = _
    rw [if_neg ?_]
    · rfl
    · intro hempty
      apply hsne
      have := List.isEmpty_iff.mp hempty
      exact List.map_eq_nil_iff.mp this

/-- C3 witness: `add_get_roundtrip` instantiated at the concrete two-tag
catalog and entry. -/
theorem add_get_roundtrip_witness :
    ∃ e', get_dish (add_dish roundtripDB roundtripEntry) roundtripDB.nextDishId = some e'
      ∧ e'.contributor = roundtripEntry.contributor
      ∧ e'.dish_name = roundtripEntry.dish_name
      ∧ e'.dish_type = roundtripEntry.dish_type
      ∧ e'.allergens = roundtripEntry.allergens
      ∧ e'.notes = roundtripEntry.notes
      ∧ e'.created_at = roundtripEntry.created_at
      ∧ e'.tag_ids = e'.tags.map Tag.id
      ∧ List.Perm e'.tag_ids roundtripEntry.tag_ids
      ∧ (∀ t ∈ e'.tags, t ∈ roundtripDB.tags ∧ t.id ∈ roundtripEntry.tag_ids)
      ∧ (roundtripEntry.tag_ids = [] → e'.dietary_flags = roundtripEntry.dietary_flags)
      ∧ (roundtripEntry.tag_ids ≠ [] → e'.dietary_flags = e'.tags.map Tag.name)
      ∧ (add_dish roundtripDB roundtripEntry).dish_tags.filter
            (fun p => decide (p.1 = roundtripDB.nextDishId))
          = roundtripEntry.tag_ids.map fun tid => (roundtripDB.nextDishId, tid) :=
  add_get_roundtrip roundtripDB roundtripEntry (by decide) (by decide) (by decide)

end DishList
